import Mathlib

/-!
Verification of the docker-compose-bundler pipeline (main.go), shallowly
embedded in Lean.  Pure string and list computations are translated directly
from the Go source; the container engine and the filesystem are modelled as
explicit oracles and finite trees, with every engine call recorded as an
event so that ordering claims can be stated.
-/

namespace DCB

/-- Go strings.HasPrefix, modelled on the character list of the string. -/
def strStarts (s pre : String) : Bool := pre.data.isPrefixOf s.data

/-- filepath.IsAbs on Unix: the path starts with a slash. -/
def isAbsPath (p : String) : Bool := strStarts p "/"

/-- Segment processing of filepath.Clean: drop empty and single-dot segments
and resolve each dot-dot segment against the accumulated stack. -/
def cleanSegsAux (absFlag : Bool) : List String → List String → List String
  | acc, [] => acc
  | acc, seg :: rest =>
    if seg = "" || seg = "." then cleanSegsAux absFlag acc rest
    else if seg = ".." then
      if acc = [] then cleanSegsAux absFlag (if absFlag then [] else [".."]) rest
      else if acc.getLast? = some ".." then cleanSegsAux absFlag (acc ++ [".."]) rest
      else cleanSegsAux absFlag acc.dropLast rest
    else cleanSegsAux absFlag (acc ++ [seg]) rest

/-- Split a character list at slashes, like splitting a path on the
separator. -/
def splitSegsAux (cur : List Char) : List Char → List String
  | [] => [String.mk cur.reverse]
  | c :: cs =>
    if c = '/' then String.mk cur.reverse :: splitSegsAux [] cs
    else splitSegsAux (c :: cur) cs

/-- The slash-separated segments of a path. -/
def splitSegs (p : String) : List String := splitSegsAux [] p.data

/-- Join path segments with slashes. -/
def joinSegs : List String → String
  | [] => ""
  | [s] => s
  | s :: restSegs => s ++ "/" ++ joinSegs restSegs

/-- filepath.Clean restricted to slash-separated paths. -/
def cleanPath (p : String) : String :=
  let absFlag := isAbsPath p
  let segs := cleanSegsAux absFlag [] (splitSegs p)
  let body := joinSegs segs
  if absFlag then "/" ++ body else if body = "" then "." else body

/-- filepath.Join of two elements: empty elements are dropped, the remaining
ones are joined with a slash and the result is cleaned. -/
def joinPath (a b : String) : String :=
  if a = "" then (if b = "" then "" else cleanPath b)
  else if b = "" then cleanPath a
  else cleanPath (a ++ "/" ++ b)

/-- The nine characters replaced by the strings.Replacer in sanitizeFilename. -/
def specialChars : List Char := ['/', ':', '\\', '*', '?', '"', '<', '>', '|']

/-- One replacement step of the strings.Replacer used by sanitizeFilename. -/
def sanitizeChar (c : Char) : Char := if c ∈ specialChars then '-' else c

/-- sanitizeFilename from main.go: replace each of the nine disallowed
filename characters by a dash and leave every other character unchanged. -/
def sanitizeFilename (s : String) : String := ⟨s.data.map sanitizeChar⟩

/-- The character class of the semver regular expression suffix groups:
word characters (letters, digits, underscore), dot and dash. -/
def isSemverIdChar (c : Char) : Bool :=
  (c.isAlpha || c.isDigit || c = '_') || c = '.' || c = '-'

/-- A nonempty run of digits matches the numeric group of the regular
expression exactly when it is a single digit or does not start with zero. -/
def isNumeral : List Char → Bool
  | [] => false
  | [_] => true
  | c :: _ :: _ => c ≠ '0'

/-- Consume the numeric group from the front, returning the remainder.  In an
anchored match the group is always followed by a non-digit, so it must cover
the maximal digit run. -/
def chompNum (cs : List Char) : Option (List Char) :=
  let d := cs.takeWhile (fun c => c.isDigit)
  if isNumeral d then some (cs.dropWhile (fun c => c.isDigit)) else none

/-- Match the optional pre-release part, the optional build part and the end
anchor of the regular expression.  The plus sign is outside the identifier
class, so the greedy spans below are forced. -/
def semverTail : List Char → Bool
  | [] => true
  | '+' :: rest =>
    !(rest.takeWhile isSemverIdChar).isEmpty &&
      (rest.dropWhile isSemverIdChar).isEmpty
  | '-' :: rest =>
    !(rest.takeWhile isSemverIdChar).isEmpty &&
      (match rest.dropWhile isSemverIdChar with
       | [] => true
       | '+' :: rest2 =>
         !(rest2.takeWhile isSemverIdChar).isEmpty &&
           (rest2.dropWhile isSemverIdChar).isEmpty
       | _ => false)
  | _ => false

/-- isValidSemver from main.go: the anchored regular expression over an
optional leading v, three dot-separated numeric groups, an optional dashed
pre-release part and an optional plus-prefixed build part, translated to the
equivalent deterministic matcher. -/
def isValidSemver (version : String) : Bool :=
  let cs := match version.data with
    | 'v' :: rest => rest
    | cs => cs
  match chompNum cs with
  | none => false
  | some r1 =>
    match r1 with
    | '.' :: r2 =>
      match chompNum r2 with
      | none => false
      | some r3 =>
        match r3 with
        | '.' :: r4 =>
          match chompNum r4 with
          | none => false
          | some r5 => semverTail r5
        | _ => false
    | _ => false

/-- XBundle from main.go: the bundle metadata block. -/
structure XBundle where
  name : String
  version : String
deriving DecidableEq, Repr

/-- A structured document value, standing for a parsed YAML node.  The YAML
text layer itself is an external library and out of scope; documents are
compared structurally. -/
inductive YVal where
  | str : String → YVal
  | nullv : YVal
  | arr : List YVal → YVal
  | ymap : List (String × YVal) → YVal

mutual
/-- Structural equality test on document values. -/
def yvalBEq : YVal → YVal → Bool
  | .str a, .str b => a == b
  | .nullv, .nullv => true
  | .arr a, .arr b => yvalListBEq a b
  | .ymap a, .ymap b => yvalMapBEq a b
  | _, _ => false

/-- Structural equality test on document sequences. -/
def yvalListBEq : List YVal → List YVal → Bool
  | [], [] => true
  | a :: as2, b :: bs2 => yvalBEq a b && yvalListBEq as2 bs2
  | _, _ => false

/-- Structural equality test on document mappings. -/
def yvalMapBEq : List (String × YVal) → List (String × YVal) → Bool
  | [], [] => true
  | (k, v) :: as2, (k2, v2) :: bs2 =>
    k == k2 && yvalBEq v v2 && yvalMapBEq as2 bs2
  | _, _ => false
end

mutual
/-- The equality test on document values decides equality. -/
theorem yvalBEq_iff : ∀ a b : YVal, yvalBEq a b = true ↔ a = b
  | .str a, .str b => by simp [yvalBEq]
  | .str a, .nullv => by simp [yvalBEq]
  | .str a, .arr b => by simp [yvalBEq]
  | .str a, .ymap b => by simp [yvalBEq]
  | .nullv, .str b => by simp [yvalBEq]
  | .nullv, .nullv => by simp [yvalBEq]
  | .nullv, .arr b => by simp [yvalBEq]
  | .nullv, .ymap b => by simp [yvalBEq]
  | .arr a, .str b => by simp [yvalBEq]
  | .arr a, .nullv => by simp [yvalBEq]
  | .arr a, .arr b => by simp [yvalBEq, yvalListBEq_iff a b]
  | .arr a, .ymap b => by simp [yvalBEq]
  | .ymap a, .str b => by simp [yvalBEq]
  | .ymap a, .nullv => by simp [yvalBEq]
  | .ymap a, .arr b => by simp [yvalBEq]
  | .ymap a, .ymap b => by simp [yvalBEq, yvalMapBEq_iff a b]

/-- The equality test on document sequences decides equality. -/
theorem yvalListBEq_iff : ∀ a b : List YVal, yvalListBEq a b = true ↔ a = b
  | [], [] => by simp [yvalListBEq]
  | [], b :: bs2 => by simp [yvalListBEq]
  | a :: as2, [] => by simp [yvalListBEq]
  | a :: as2, b :: bs2 => by
    simp [yvalListBEq, yvalBEq_iff a b, yvalListBEq_iff as2 bs2]

/-- The equality test on document mappings decides equality. -/
theorem yvalMapBEq_iff :
    ∀ a b : List (String × YVal), yvalMapBEq a b = true ↔ a = b
  | [], [] => by simp [yvalMapBEq]
  | [], b :: bs2 => by simp [yvalMapBEq]
  | a :: as2, [] => by simp [yvalMapBEq]
  | (k, v) :: as2, (k2, v2) :: bs2 => by
    simp [yvalMapBEq, yvalBEq_iff v v2, yvalMapBEq_iff as2 bs2, and_assoc]
end

instance : DecidableEq YVal := fun a b =>
  decidable_of_iff (yvalBEq a b = true) (yvalBEq_iff a b)

/-- BuildConfig from main.go.  Args are kept as association pairs. -/
structure BuildConfig where
  context : String
  dockerfile : String
  args : List (String × String)
deriving DecidableEq, Repr

/-- The dynamically typed build field of a service: a string, a mapping that
unmarshals to a BuildConfig, or a value of any other type. -/
inductive BuildSpec where
  | strSpec : String → BuildSpec
  | confSpec : BuildConfig → BuildSpec
  | badSpec : BuildSpec
deriving DecidableEq, Repr

/-- Service from main.go.  The image and build fields drive the resolver; the
remaining tagged fields (environment, volumes, ports, networks, depends_on,
command, entrypoint, restart) and the inline Extra map are passthrough data
for the claims under verification and are collapsed into `rest`. -/
structure Service where
  image : String
  build : Option BuildSpec
  rest : List (String × YVal)
deriving DecidableEq

/-- DockerCompose from main.go: the manifest model. -/
structure Manifest where
  version : String
  services : List (String × Service)
  networks : Option YVal
  volumes : Option YVal
  configs : Option YVal
  secrets : Option YVal
  xbundle : Option XBundle
deriving DecidableEq

/-- Optional mapping entry produced by an omitempty field: absent values
contribute no key. -/
def optPart (k : String) : Option YVal → List (String × YVal)
  | none => []
  | some v => [(k, v)]

/-- Key lookup in a document mapping: the first entry with the key wins. -/
def lookupY (kvs : List (String × YVal)) (k : String) : Option YVal :=
  (kvs.find? (fun p => p.1 == k)).map Prod.snd

/-- The string held by an optional document value, empty when absent or not
a string, as Go unmarshalling leaves the zero value. -/
def decodeStr : Option YVal → String
  | some (.str s) => s
  | _ => ""

/-- Modelled from the spec: the YAML serializer is an external library
declared out of scope, so marshalling of BuildConfig is modelled at
document level following the struct tags of main.go (context, dockerfile
and args, each omitempty). -/
def encodeBuildConfig (c : BuildConfig) : YVal :=
  .ymap ((if c.context = "" then [] else [("context", .str c.context)])
    ++ (if c.dockerfile = "" then [] else [("dockerfile", .str c.dockerfile)])
    ++ (if c.args.isEmpty then []
        else [("args", .ymap (c.args.map fun kv => (kv.1, .str kv.2)))]))

/-- Modelled from the spec: marshalling of the dynamically typed build
field, at document level. -/
def encodeBuild : BuildSpec → YVal
  | .strSpec s => .str s
  | .confSpec c => encodeBuildConfig c
  | .badSpec => .nullv

/-- Modelled from the spec: marshalling of a Service following the struct
tags of main.go; image and build are omitempty, the remaining tagged fields
and the inline map pass through. -/
def encodeService (s : Service) : YVal :=
  .ymap ((if s.image = "" then [] else [("image", .str s.image)])
    ++ (match s.build with | none => [] | some b => [("build", encodeBuild b)])
    ++ s.rest)

/-- Modelled from the spec: the mapping entries of a marshalled manifest,
following the struct tags and field order of main.go; version, services and
x-bundle are always emitted, the four passthrough sections are omitempty. -/
def encodeComposeKvs (m : Manifest) : List (String × YVal) :=
  [("version", .str m.version),
   ("services", .ymap (m.services.map fun p => (p.1, encodeService p.2)))]
    ++ optPart "networks" m.networks ++ optPart "volumes" m.volumes
    ++ optPart "configs" m.configs ++ optPart "secrets" m.secrets
    ++ [("x-bundle",
         match m.xbundle with
         | none => .nullv
         | some xb => .ymap [("name", .str xb.name),
                             ("version", .str xb.version)])]

/-- Modelled from the spec: marshalling of the whole manifest at document
level. -/
def encodeCompose (m : Manifest) : YVal := .ymap (encodeComposeKvs m)

/-- Modelled from the spec: unmarshalling of the build mapping arguments. -/
def decodeArgs : Option YVal → List (String × String)
  | some (.ymap kvs) =>
    kvs.map fun p => (p.1, match p.2 with | .str s => s | _ => "")
  | _ => []

/-- Modelled from the spec: unmarshalling of the dynamically typed build
field. -/
def decodeBuild : YVal → Option BuildSpec
  | .str s => some (.strSpec s)
  | .ymap kvs => some (.confSpec ⟨decodeStr (lookupY kvs "context"),
      decodeStr (lookupY kvs "dockerfile"), decodeArgs (lookupY kvs "args")⟩)
  | _ => none

/-- Modelled from the spec: unmarshalling of a Service at document level;
the declared keys feed the typed fields, everything else passes through. -/
def decodeService : YVal → Service
  | .ymap kvs =>
    ⟨decodeStr (lookupY kvs "image"),
     (lookupY kvs "build").bind decodeBuild,
     kvs.filter (fun p => p.1 != "image" && p.1 != "build")⟩
  | _ => ⟨"", none, []⟩

/-- Modelled from the spec: unmarshalling of the metadata block. -/
def decodeXBundle : YVal → Option XBundle
  | .ymap kvs => some ⟨decodeStr (lookupY kvs "name"),
      decodeStr (lookupY kvs "version")⟩
  | _ => none

/-- Modelled from the spec: unmarshalling of the whole manifest at document
level. -/
def decodeCompose : YVal → Option Manifest
  | .ymap kvs =>
    some ⟨decodeStr (lookupY kvs "version"),
      (match lookupY kvs "services" with
       | some (.ymap svs) => svs.map fun p => (p.1, decodeService p.2)
       | _ => []),
      lookupY kvs "networks", lookupY kvs "volumes",
      lookupY kvs "configs", lookupY kvs "secrets",
      (lookupY kvs "x-bundle").bind decodeXBundle⟩
  | _ => none

/-- True exactly on successful Except results. -/
def exceptOk {ε α : Type} : Except ε α → Bool
  | .ok _ => true
  | .error _ => false

/-- The x-bundle validation block at the start of Bundle (main.go lines
104-116): missing block, empty name, empty version, or a version rejected by
isValidSemver each abort with an error; on success the metadata is available
to the rest of the run. -/
def validateBundleMetadata (m : Manifest) : Except String XBundle :=
  match m.xbundle with
  | none => .error "missing x-bundle entry in compose file"
  | some xb =>
    if xb.name = "" then .error "missing name in x-bundle"
    else if xb.version = "" then .error "missing version in x-bundle"
    else if !(isValidSemver xb.version) then
      .error "invalid version in x-bundle, must be valid semantic versioning"
    else .ok xb

/-- A finite filesystem tree: regular files and directories whose children
are listed in the lexical order in which filepath.Walk visits them. -/
inductive FTree where
  | file : String → FTree
  | dir : String → List FTree → FTree

/-- Name of a tree node. -/
def fname : FTree → String
  | .file n => n
  | .dir n _ => n

/-- Whether a tree node is a directory. -/
def isDirT : FTree → Bool
  | .file _ => false
  | .dir _ _ => true

/-- Relative path of a child node, as produced by filepath.Rel from the walk
root, with forward slashes. -/
def relJoin (p n : String) : String := if p = "." then n else p ++ "/" ++ n

/-- Outcome signal of one filepath.Walk subtree visit: normal completion, a
SkipDir propagating upward, or an aborting error. -/
inductive WSig where
  | ok : WSig
  | skipdir : WSig
  | err : WSig
deriving DecidableEq, Repr

mutual
/-- filepath.Walk running the callback of createBuildContextTar: a
filesystem error aborts the walk, a relative name beginning with .git makes
the callback return SkipDir, and every other visit emits one tar entry.
Walk treats SkipDir from a directory by skipping its contents, and SkipDir
from a regular file by abandoning the remaining entries of the containing
directory. -/
def ctxWalk (errAt : String → Bool) (rel : String) : FTree → List String × WSig
  | .file _ =>
    if errAt rel then ([], .err)
    else if strStarts rel ".git" then ([], .skipdir)
    else ([rel], .ok)
  | .dir _ cs =>
    if errAt rel then ([], .err)
    else if strStarts rel ".git" then ([], .skipdir)
    else
      let r := ctxWalkKids errAt rel cs
      (rel :: r.1, r.2)

/-- The child loop of filepath.Walk for the build-context callback. -/
def ctxWalkKids (errAt : String → Bool) (rel : String) : List FTree → List String × WSig
  | [] => ([], .ok)
  | c :: restKids =>
    let r := ctxWalk errAt (relJoin rel (fname c)) c
    match r.2 with
    | .err => (r.1, .err)
    | .skipdir =>
      if isDirT c then
        let rr := ctxWalkKids errAt rel restKids
        (r.1 ++ rr.1, rr.2)
      else (r.1, .skipdir)
    | .ok =>
      let rr := ctxWalkKids errAt rel restKids
      (r.1 ++ rr.1, rr.2)
end

/-- createBuildContextTar from main.go: the walk runs in a background
producer whose result is discarded, so the function returns the streamed
entries together with an error value that is always nil. -/
def createBuildContextTar (errAt : String → Bool) (ctx : FTree) :
    List String × Option String :=
  ((ctxWalk errAt "." ctx).1, none)

mutual
/-- The child loop of filepath.Walk for the createTarGz callback, which
emits one entry per visited path. -/
def tarWalkKids (rel : String) : List FTree → List String
  | [] => []
  | c :: restKids =>
    tarEntriesOf (relJoin rel (fname c)) c ++ tarWalkKids rel restKids

/-- Entries contributed by one subtree in createTarGz. -/
def tarEntriesOf (rel : String) : FTree → List String
  | .file _ => [rel]
  | .dir _ cs => rel :: tarWalkKids rel cs
end

/-- createTarGz from main.go, at entry-name level: walk the source
directory, skip the relative path of the root itself, and name each entry by
its forward-slash relative path. -/
def createTarGzEntries : FTree → List String
  | .file _ => []
  | .dir _ cs => tarWalkKids "." cs

/-- Tar filename a resolved image reference is saved under. -/
def tarName (ref : String) : String := sanitizeFilename ref ++ ".tar"

/-- Insert a key into the key set of a Go map if not already present. -/
def insertRef (acc : List String) (r : String) : List String :=
  if r ∈ acc then acc else acc ++ [r]

/-- The key set of a Go map built by successive insertions. -/
def uniqueKeys (l : List String) : List String := l.foldl insertRef []

/-- The temporary bundle directory assembled by Bundle before archiving: the
four fixed top-level files and the images directory holding one tar file per
distinct saved tar filename (a later save under an already used filename
overwrites that file).  Children are listed in the lexical order of the four
fixed names; the order inside images is immaterial to the verified claims. -/
def mkBundleTree (tarNames : List String) : FTree :=
  .dir "" [.file "README.md", .file "docker-compose.yml",
           .dir "images" (tarNames.map .file),
           .file "load-images.bat", .file "load-images.sh"]

/-- Archive entry names produced by Bundle for the resolved references. -/
def bundleEntries (refs : List String) : List String :=
  createTarGzEntries (mkBundleTree (uniqueKeys (refs.map tarName)))

/-- The error oracle of an always-healthy filesystem. -/
def noErr : String → Bool := fun _ => false

/-- A build context holding a .gitignore file followed by a Dockerfile. -/
def gitSkipCtx : FTree := .dir "web" [.file ".gitignore", .file "Dockerfile"]

/-- A build context holding two regular files. -/
def abCtx : FTree := .dir "ctx" [.file "a.txt", .file "b.txt"]

/-- One call to the container engine control API, in program order: build
records the resolved context path, the Dockerfile name and the image tag. -/
inductive EngineEvent where
  | build : String → String → String → EngineEvent
  | inspect : String → EngineEvent
  | pull : String → EngineEvent
  | save : String → EngineEvent
  | remove : String → EngineEvent
deriving DecidableEq, Repr

/-- Behaviour oracle of the container engine for one run: which references
the inspect call finds locally, and which build, pull and save calls fail,
either at the transport level or through an error frame in the streamed
output. -/
structure EngineBehavior where
  present : String → Bool
  pullStartFail : String → Bool
  pullFrameErr : String → Option String
  buildCallFail : String → Bool
  buildFrameErr : String → Option String
  saveFail : String → Bool

/-- parseBuildConfig from main.go: a string is a bare context path, a
mapping carries the full configuration, any other type is rejected. -/
def parseBuildConfig : BuildSpec → Except String BuildConfig
  | .strSpec v => .ok ⟨v, "", []⟩
  | .confSpec c => .ok c
  | .badSpec => .error "invalid build configuration type"

/-- buildImage from main.go: resolve a relative context against the manifest
directory, default the Dockerfile name, and issue one engine build call,
failing on a transport error or on an error frame of the build output. -/
def buildImage (eng : EngineBehavior) (config : BuildConfig)
    (baseDir imageName : String) : Except String Unit × List EngineEvent :=
  let buildContext := if isAbsPath config.context then config.context
    else joinPath baseDir config.context
  let dockerfile := if config.dockerfile = "" then "Dockerfile"
    else config.dockerfile
  if eng.buildCallFail imageName then
    (.error "image build transport error",
     [.build buildContext dockerfile imageName])
  else
    match eng.buildFrameErr imageName with
    | some e => (.error ("build error: " ++ e),
                 [.build buildContext dockerfile imageName])
    | none => (.ok (), [.build buildContext dockerfile imageName])

/-- Result of resolving one image reference by pulling. -/
structure PullOut where
  result : Except String Unit
  pulledNew : List String
  trace : List EngineEvent

/-- pullImageIfNotExists from main.go: inspect locally; when present return
at once; otherwise pull, recording the reference as freshly pulled once the
pull call itself has succeeded, and fail on any error frame of the streamed
pull output. -/
def pullImageIfNotExists (eng : EngineBehavior) (imageName : String) : PullOut :=
  if eng.present imageName then ⟨.ok (), [], [.inspect imageName]⟩
  else if eng.pullStartFail imageName then
    ⟨.error "image pull transport error", [],
     [.inspect imageName, .pull imageName]⟩
  else
    match eng.pullFrameErr imageName with
    | some e => ⟨.error ("pull error: " ++ e), [imageName],
                 [.inspect imageName, .pull imageName]⟩
    | none => ⟨.ok (), [imageName], [.inspect imageName, .pull imageName]⟩

instance {ε α : Type} [DecidableEq ε] [DecidableEq α] :
    DecidableEq (Except ε α) := fun a b =>
  match a, b with
  | .ok x, .ok y =>
    if h : x = y then .isTrue (congrArg Except.ok h)
    else .isFalse fun hc => h (Except.ok.inj hc)
  | .error x, .error y =>
    if h : x = y then .isTrue (congrArg Except.error h)
    else .isFalse fun hc => h (Except.error.inj hc)
  | .ok _, .error _ => .isFalse fun hc => Except.noConfusion hc
  | .error _, .ok _ => .isFalse fun hc => Except.noConfusion hc

/-- Result of resolving one service: the returned reference (empty for a
service without image and build), the possibly updated service, the freshly
pulled references and the engine trace. -/
structure ResolveOut where
  result : Except String String
  service : Service
  pulledNew : List String
  trace : List EngineEvent
deriving DecidableEq

/-- processServiceWithBundle from main.go: with a build spec present the
synthetic bundles/ reference is built, stored into the image field and the
build spec cleared; otherwise a nonempty image reference is inspected and
pulled when absent; otherwise no image is produced. -/
def processServiceWithBundle (eng : EngineBehavior) (serviceName : String)
    (service : Service) (baseDir bundleName bundleVersion : String) : ResolveOut :=
  match service.build with
  | some bs =>
    let imageName :=
      "bundles/" ++ bundleName ++ "/" ++ serviceName ++ ":" ++ bundleVersion
    match parseBuildConfig bs with
    | .error e => ⟨.error e, service, [], []⟩
    | .ok config =>
      match buildImage eng config baseDir imageName with
      | (.error e, tr) => ⟨.error e, service, [], tr⟩
      | (.ok _, tr) =>
        ⟨.ok imageName, { service with image := imageName, build := none },
         [], tr⟩
  | none =>
    if service.image ≠ "" then
      let p := pullImageIfNotExists eng service.image
      match p.result with
      | .error e => ⟨.error e, service, p.pulledNew, p.trace⟩
      | .ok _ => ⟨.ok service.image, service, p.pulledNew, p.trace⟩
    else ⟨.ok "", service, [], []⟩

/-- The service loop of Bundle: process each service, abort on the first
failure, write the updated service back and record the returned reference
when one was produced, accumulating freshly pulled references and the
engine trace. -/
def processAll (eng : EngineBehavior) (baseDir bundleName bundleVersion : String) :
    List (String × Service) →
      Except String (List (String × Service) × List String × List String)
        × List EngineEvent
  | [] => (.ok ([], [], []), [])
  | (n, s) :: restServices =>
    let r := processServiceWithBundle eng n s baseDir bundleName bundleVersion
    match r.result with
    | .error e =>
      (.error ("failed to process service " ++ n ++ ": " ++ e), r.trace)
    | .ok ref =>
      match processAll eng baseDir bundleName bundleVersion restServices with
      | (.error e, tr) => (.error e, r.trace ++ tr)
      | (.ok (svcs, refs, pulled), tr) =>
        (.ok ((n, if ref = "" then s else r.service) :: svcs,
              (if ref = "" then refs else ref :: refs),
              r.pulledNew ++ pulled),
         r.trace ++ tr)

/-- The save loop of Bundle: one engine save per image map entry, aborting
on the first failure. -/
def saveAll (eng : EngineBehavior) :
    List String → Except String Unit × List EngineEvent
  | [] => (.ok (), [])
  | r :: restRefs =>
    if eng.saveFail r then (.error ("failed to save image " ++ r), [.save r])
    else
      match saveAll eng restRefs with
      | (res, tr) => (res, .save r :: tr)

/-- The built-image candidates collected by cleanupImages: service images
carrying the bundled- name prefix, each distinct reference once. -/
def builtCleanupTargets (svcs : List (String × Service)) : List String :=
  uniqueKeys
    ((svcs.filter
        (fun p => p.2.image ≠ "" && strStarts p.2.image "bundled-")).map
      (fun p => p.2.image))

/-- cleanupImages from main.go: attempt one remove per tracked built image;
a failed removal is only logged, the loop continues with the next image, and
the function itself always returns nil. -/
def cleanupImages (removeFail : String → Bool)
    (svcs : List (String × Service)) : List (String × Bool) :=
  (builtCleanupTargets svcs).map (fun r => (r, removeFail r))

/-- cleanupFreshlyPulledImages from main.go: attempt one remove per freshly
pulled reference; failures are only logged and the function always returns
nil. -/
def cleanupFreshlyPulledImages (removeFail : String → Bool)
    (pulled : List String) : List (String × Bool) :=
  pulled.map (fun r => (r, removeFail r))

/-- The observable outcome of a successful run: the entry names of the
written archive and the services of the rewritten manifest. -/
structure BundleOutput where
  archiveEntries : List String
  services : List (String × Service)

/-- Bundle from main.go, modelled end to end: parse, validate metadata,
resolve every service, save every image map entry, assemble and archive the
bundle directory, then run both cleanup passes, whose removal outcomes never
change the result.  The trace records every engine call in program order. -/
def bundleRun (eng : EngineBehavior) (removeFail : String → Bool)
    (parsed : Option Manifest) (baseDir : String) :
    Except String BundleOutput × List EngineEvent :=
  match parsed with
  | none => (.error "failed to parse compose file", [])
  | some compose =>
    match validateBundleMetadata compose with
    | .error e => (.error e, [])
    | .ok xb =>
      match processAll eng baseDir xb.name xb.version compose.services with
      | (.error e, tr) => (.error e, tr)
      | (.ok (svcs, rawRefs, pulled), tr) =>
        let refs := uniqueKeys rawRefs
        match saveAll eng refs with
        | (.error e, str2) => (.error e, tr ++ str2)
        | (.ok _, str2) =>
          let cl := cleanupImages removeFail svcs
            ++ cleanupFreshlyPulledImages removeFail pulled
          (.ok ⟨bundleEntries refs, svcs⟩,
           tr ++ str2 ++ cl.map (fun p => .remove p.1))

/-- An engine with every reference locally present and no failures. -/
def engW : EngineBehavior :=
  ⟨fun _ => true, fun _ => false, fun _ => none, fun _ => false,
   fun _ => none, fun _ => false⟩

/-- An engine with no reference locally present and no failures, so every
image resolution goes through a pull. -/
def engPullW : EngineBehavior :=
  ⟨fun _ => false, fun _ => false, fun _ => none, fun _ => false,
   fun _ => none, fun _ => false⟩

/-- A service holding only a plain image reference. -/
def svcRedis : Service := ⟨"redis:7", none, []⟩

/-- A valid one-service manifest used by the concrete witnesses. -/
def composeW : Manifest :=
  ⟨"", [("redis", svcRedis)], none, none, none, none,
   some ⟨"example", "1.0.0"⟩⟩

/-- A manifest whose metadata version fails the semantic-version pattern. -/
def composeBadW : Manifest :=
  ⟨"", [], none, none, none, none, some ⟨"example", "1.2"⟩⟩

/-- Replacing a replaced character again changes nothing: the dash is not in
the replaced set, and unreplaced characters are fixed points. -/
theorem sanitizeChar_idem (c : Char) : sanitizeChar (sanitizeChar c) = sanitizeChar c := by
  by_cases h : c ∈ specialChars <;> simp [sanitizeChar, h]

/-- No character of a sanitized name is a backslash. -/
theorem sanitizeChar_ne_backslash (c : Char) : sanitizeChar c ≠ '\\' := by
  by_cases h : c ∈ specialChars
  · rw [sanitizeChar, if_pos h]; decide
  · rw [sanitizeChar, if_neg h]
    intro hc
    subst hc
    exact h (by decide)

/-- C5, counterexample: the claim asserts injectivity over the tested
character set, but the slash and the colon both occur in the tested input
registry/app:1.0 and both sanitize to a dash, so two distinct strings over
that character set collide. -/
theorem sanitize_not_injective_cex :
    sanitizeFilename "/" = sanitizeFilename ":" ∧ ("/" : String) ≠ ":" :=
  ⟨by decide, by decide⟩

/-- C5, amended: sanitizeFilename replaces every occurrence of the nine
characters by a dash and leaves every other character unchanged, and it is
idempotent; it is the identity (hence injective) on strings containing none
of the nine characters, but it is not injective over the tested character
set, since distinct replaced characters collide. -/
theorem sanitize_spec :
    (∀ c ∈ specialChars, sanitizeChar c = '-')
    ∧ (∀ c, c ∉ specialChars → sanitizeChar c = c)
    ∧ (∀ s, sanitizeFilename (sanitizeFilename s) = sanitizeFilename s)
    ∧ (∀ s, (∀ c ∈ s.data, c ∉ specialChars) → sanitizeFilename s = s) := by
  refine ⟨fun c hc => by simp [sanitizeChar, hc],
          fun c hc => by simp [sanitizeChar, hc], fun s => ?_, fun s hs => ?_⟩
  · apply congrArg String.mk
    show (s.data.map sanitizeChar).map sanitizeChar = s.data.map sanitizeChar
    rw [List.map_map]
    exact List.map_congr_left fun c _ => sanitizeChar_idem c
  · have : s.data.map sanitizeChar = s.data := by
      have := List.map_congr_left (l := s.data) (f := sanitizeChar) (g := id)
        (fun c hc => by simp [sanitizeChar, hs c hc])
      simpa using this
    show String.mk (s.data.map sanitizeChar) = s
    rw [this]

/-- C5 witness: the amended properties evaluated at concrete inputs. -/
theorem sanitize_spec_witness :
    sanitizeChar '/' = '-' ∧ sanitizeChar 'a' = 'a'
    ∧ sanitizeFilename (sanitizeFilename "registry/app:1.0") =
        sanitizeFilename "registry/app:1.0"
    ∧ sanitizeFilename "abc" = "abc" :=
  ⟨sanitize_spec.1 '/' (by decide), sanitize_spec.2.1 'a' (by decide),
   sanitize_spec.2.2.1 "registry/app:1.0", sanitize_spec.2.2.2 "abc" (by decide)⟩

/-- C2: bundle-metadata validation succeeds exactly when the metadata block
is present with a nonempty name and a version accepted by the semantic
version matcher, and the listed example versions are classified as claimed. -/
theorem validate_metadata_spec :
    (∀ m : Manifest, exceptOk (validateBundleMetadata m) = true ↔
      ∃ xb, m.xbundle = some xb ∧ xb.name ≠ "" ∧ isValidSemver xb.version = true)
    ∧ isValidSemver "1.2" = false ∧ isValidSemver "abc" = false
    ∧ isValidSemver "1.2.3.4" = false ∧ isValidSemver "" = false
    ∧ isValidSemver "1.2.3" = true ∧ isValidSemver "v1.2.3" = true
    ∧ isValidSemver "1.2.3-rc.1+build.5" = true := by
  refine ⟨?_, by decide, by decide, by decide, by decide, by decide, by decide,
          by decide⟩
  intro m
  have hempty : isValidSemver "" = false := by decide
  cases hm : m.xbundle with
  | none =>
    simp only [validateBundleMetadata, hm, exceptOk]
    constructor
    · intro h; exact absurd h (by decide)
    · rintro ⟨xb, hx, -⟩; exact absurd hx (by simp)
  | some xb =>
    constructor
    · intro h
      refine ⟨xb, rfl, ?_, ?_⟩ <;>
      · by_cases hn : xb.name = "" <;> by_cases hv : xb.version = "" <;>
          by_cases hs : isValidSemver xb.version = true <;>
          simp [validateBundleMetadata, hm, hn, hv, hs, exceptOk] at h ⊢
    · rintro ⟨xb2, hx2, hname, hsem⟩
      have hxb : xb2 = xb := (Option.some.inj hx2).symm
      subst hxb
      have hv : xb2.version ≠ "" := by
        intro hv; rw [hv] at hsem; rw [hempty] at hsem; exact Bool.noConfusion hsem
      simp [validateBundleMetadata, hm, hname, hv, hsem, exceptOk]

/-- C2 witness: the validation characterization applied to a concrete valid
manifest. -/
theorem validate_metadata_spec_witness :
    ∃ xb, composeW.xbundle = some xb ∧ xb.name ≠ ""
      ∧ isValidSemver xb.version = true :=
  (validate_metadata_spec.1 composeW).1 (by decide)

/-- Members of an insertion result come from the accumulator or the key. -/
theorem mem_insertRef {x r : String} {acc : List String}
    (h : x ∈ insertRef acc r) : x ∈ acc ∨ x = r := by
  unfold insertRef at h
  split at h
  · exact .inl h
  · rcases List.mem_append.1 h with h | h
    · exact .inl h
    · exact .inr (List.mem_singleton.1 h)

/-- Members of the folded key set come from the accumulator or the list. -/
theorem mem_uniqueKeys_aux (x : String) (l : List String) :
    ∀ acc, x ∈ List.foldl insertRef acc l → x ∈ acc ∨ x ∈ l := by
  induction l with
  | nil => intro acc h; exact .inl h
  | cons r rest ih =>
    intro acc h
    rcases ih (insertRef acc r) h with h | h
    · rcases mem_insertRef h with h | h
      · exact .inl h
      · exact .inr (by simp [h])
    · exact .inr (List.mem_cons_of_mem _ h)

/-- Inserting a key preserves distinctness of the key set. -/
theorem insertRef_nodup {acc : List String} (h : acc.Nodup) (r : String) :
    (insertRef acc r).Nodup := by
  unfold insertRef
  split
  · exact h
  · next hr =>
    rw [List.nodup_append]
    exact ⟨h, List.nodup_singleton r,
      fun b hb hb2 => by rw [List.mem_singleton] at hb2; subst hb2; exact hr hb⟩

/-- The key set of a Go map never holds a key twice. -/
theorem uniqueKeys_nodup (l : List String) : (uniqueKeys l).Nodup := by
  have haux : ∀ rest acc, acc.Nodup → (List.foldl insertRef acc rest).Nodup := by
    intro rest
    induction rest with
    | nil => intro acc h; exact h
    | cons r rs ih => intro acc h; exact ih _ (insertRef_nodup h r)
  exact haux l [] List.nodup_nil

/-- Walking a directory of regular files under a non-dot base emits one
entry per file, named by the slash-joined path. -/
theorem tarWalkKids_files (base : String) (hbase : base ≠ ".")
    (ns : List String) :
    tarWalkKids base (ns.map FTree.file) = ns.map (fun n => base ++ "/" ++ n) := by
  induction ns with
  | nil => rfl
  | cons n rest ih =>
    rw [List.map_cons, tarWalkKids, tarEntriesOf, List.map_cons, ← ih]
    show relJoin base (fname (FTree.file n)) :: _ = _
    rw [relJoin, fname, if_neg hbase]
    rfl

/-- The archive entry list of a bundle, computed. -/
theorem bundleEntries_eq (refs : List String) :
    bundleEntries refs =
      ["README.md", "docker-compose.yml", "images"]
        ++ (uniqueKeys (refs.map tarName)).map (fun n => "images/" ++ n)
        ++ ["load-images.bat", "load-images.sh"] := by
  have himg : ∀ n : String, ("images" : String) ++ "/" ++ n = "images/" ++ n := by
    intro n
    rw [show ("images" : String) ++ "/" = "images/" from rfl]
  unfold bundleEntries createTarGzEntries mkBundleTree
  simp only [tarWalkKids, tarEntriesOf, fname, relJoin,
    tarWalkKids_files "images" (by decide)]
  simp [himg]
  rw [tarWalkKids_files "images" (by decide)]
  exact List.map_congr_left fun n _ => himg n

/-- An entry under images is never empty and never the root dot. -/
theorem imagesEntry_ne (n : String) :
    ("images/" ++ n) ≠ "" ∧ ("images/" ++ n) ≠ "." := by
  constructor
  · intro h
    have hl := congrArg String.length h
    rw [String.length_append] at hl
    rw [show ("images/" : String).length = 7 from rfl,
        show ("" : String).length = 0 from rfl] at hl
    omega
  · intro h
    have hl := congrArg String.length h
    rw [String.length_append] at hl
    rw [show ("images/" : String).length = 7 from rfl,
        show ("." : String).length = 1 from rfl] at hl
    omega

/-- No character of an images entry built from a tar filename is a
backslash. -/
theorem backslash_not_mem_imagesEntry (r : String) :
    '\\' ∉ ("images/" ++ tarName r).data := by
  rw [String.data_append, tarName, String.data_append]
  intro h
  rcases List.mem_append.1 h with h | h
  · exact (by decide : '\\' ∉ ("images/" : String).data) h
  rcases List.mem_append.1 h with h | h
  · rw [show (sanitizeFilename r).data = r.data.map sanitizeChar from rfl] at h
    obtain ⟨c, -, hc⟩ := List.mem_map.1 h
    exact sanitizeChar_ne_backslash c hc
  · exact (by decide : '\\' ∉ (".tar" : String).data) h

/-- C4, counterexample: the references a/b and a:b are distinct, yet their
sanitized tar filenames coincide, so the archive holds a single tar entry
for two unique resolved references, not one entry per unique reference. -/
theorem archive_collision_cex :
    ("a/b" : String) ≠ "a:b"
    ∧ bundleEntries ["a/b", "a:b"] =
        ["README.md", "docker-compose.yml", "images", "images/a-b.tar",
         "load-images.bat", "load-images.sh"]
    ∧ ((bundleEntries ["a/b", "a:b"]).filter
        (fun e => strStarts e "images/")).length = 1 :=
  ⟨by decide, by decide, by decide⟩

/-- C4, amended: the archive contains exactly the four fixed top-level
files plus the images directory holding one tar entry per distinct sanitized
tar filename of the resolved references (references whose sanitized names
collide share one entry); the entry list is duplicate-free in the
no-collision sense, no entry name contains a backslash, no entry is the root
itself, and an empty reference list still yields the images directory. -/
theorem archive_entries_spec :
    (∀ refs : List String,
      bundleEntries refs =
        ["README.md", "docker-compose.yml", "images"]
          ++ (uniqueKeys (refs.map tarName)).map (fun n => "images/" ++ n)
          ++ ["load-images.bat", "load-images.sh"]
      ∧ (uniqueKeys (refs.map tarName)).Nodup
      ∧ (∀ e ∈ bundleEntries refs, '\\' ∉ e.data ∧ e ≠ "" ∧ e ≠ "."))
    ∧ bundleEntries [] =
        ["README.md", "docker-compose.yml", "images", "load-images.bat",
         "load-images.sh"] := by
  refine ⟨fun refs => ⟨bundleEntries_eq refs, uniqueKeys_nodup _, ?_⟩, by decide⟩
  intro e he
  rw [bundleEntries_eq] at he
  rcases List.mem_append.1 he with he | he
  · rcases List.mem_append.1 he with he | he
    · rw [List.mem_cons, List.mem_cons, List.mem_cons] at he
      rcases he with rfl | rfl | rfl | he
      · exact ⟨by decide, by decide, by decide⟩
      · exact ⟨by decide, by decide, by decide⟩
      · exact ⟨by decide, by decide, by decide⟩
      · exact absurd he (by simp)
    · obtain ⟨n, hn, rfl⟩ := List.mem_map.1 he
      rcases mem_uniqueKeys_aux n _ [] hn with hn | hn
      · exact absurd hn (by simp)
      · obtain ⟨r, -, rfl⟩ := List.mem_map.1 hn
        exact ⟨backslash_not_mem_imagesEntry r, imagesEntry_ne (tarName r)⟩
  · rw [List.mem_cons, List.mem_cons] at he
    rcases he with rfl | rfl | he
    · exact ⟨by decide, by decide, by decide⟩
    · exact ⟨by decide, by decide, by decide⟩
    · exact absurd he (by simp)

/-- C4 witness: the amended per-entry facts evaluated at a concrete input. -/
theorem archive_entries_spec_witness :
    '\\' ∉ ("images/x.tar" : String).data ∧ ("images/x.tar" : String) ≠ ""
    ∧ ("images/x.tar" : String) ≠ "." :=
  (archive_entries_spec.1 ["x"]).2.2 "images/x.tar" (by decide)

/-- C6, code bug: the callback returns SkipDir for the regular file
.gitignore, and filepath.Walk then abandons the remaining entries of the
containing directory, so the Dockerfile next to it is omitted from the
build-context stream even though its relative name does not begin with
.git; without the .gitignore file the Dockerfile is streamed. -/
theorem buildctx_skipdir_file_bug :
    (createBuildContextTar noErr gitSkipCtx).1 = ["."]
    ∧ strStarts "Dockerfile" ".git" = false
    ∧ "Dockerfile" ∉ (createBuildContextTar noErr gitSkipCtx).1
    ∧ (createBuildContextTar noErr (.dir "web" [.file "Dockerfile"])).1 =
        [".", "Dockerfile"] :=
  ⟨by decide, by decide, by decide, by decide⟩

/-- C10: createBuildContextTar returns a nil error unconditionally; the
walk outcome of the background producer is discarded, so a failing walk
silently yields a truncated or empty stream instead of a surfaced error. -/
theorem buildctx_error_discarded :
    (∀ errAt ctx, (createBuildContextTar errAt ctx).2 = none)
    ∧ (createBuildContextTar (fun r => r = "b.txt") abCtx).1 = [".", "a.txt"]
    ∧ (ctxWalk (fun r => r = "b.txt") "." abCtx).2 = .err
    ∧ (createBuildContextTar noErr abCtx).1 = [".", "a.txt", "b.txt"]
    ∧ (createBuildContextTar (fun r => r = ".") abCtx).1 = [] :=
  ⟨fun _ _ => rfl, by decide, by decide, by decide, by decide⟩

/-- No string starting with the bundles/ namespace carries the bundled-
name prefix searched by cleanup. -/
theorem strStarts_bundles (r : String) :
    strStarts ("bundles/" ++ r) "bundled-" = false := by
  unfold strStarts
  rw [String.data_append]
  rw [show ("bundles/" : String).data = ['b','u','n','d','l','e','s','/'] from rfl]
  rw [show ("bundled-" : String).data = ['b','u','n','d','l','e','d','-'] from rfl]
  simp [List.isPrefixOf]

/-- C1: the resolver branches exactly as claimed: a present build spec wins
over any image reference and produces the synthetic reference with resolved
context and defaulted Dockerfile, setting the image field and clearing the
build spec; otherwise a nonempty image is inspected and pulled only when
absent while being recorded as freshly pulled, the reference returned
unchanged; otherwise no reference is produced and the service contributes
nothing to the image map of the surrounding loop. -/
theorem resolver_branches_spec :
    ∀ (eng : EngineBehavior) (sname : String) (svc : Service)
      (baseDir bundleName bundleVersion : String),
      (∀ bs config, svc.build = some bs → parseBuildConfig bs = .ok config →
        eng.buildCallFail
            ("bundles/" ++ bundleName ++ "/" ++ sname ++ ":" ++ bundleVersion)
          = false →
        eng.buildFrameErr
            ("bundles/" ++ bundleName ++ "/" ++ sname ++ ":" ++ bundleVersion)
          = none →
        processServiceWithBundle eng sname svc baseDir bundleName bundleVersion =
          ⟨.ok ("bundles/" ++ bundleName ++ "/" ++ sname ++ ":" ++ bundleVersion),
           { svc with
              image :=
                "bundles/" ++ bundleName ++ "/" ++ sname ++ ":" ++ bundleVersion,
              build := none },
           [],
           [.build (if isAbsPath config.context then config.context
                    else joinPath baseDir config.context)
                   (if config.dockerfile = "" then "Dockerfile"
                    else config.dockerfile)
                   ("bundles/" ++ bundleName ++ "/" ++ sname ++ ":"
                     ++ bundleVersion)]⟩)
      ∧ (svc.build = none → svc.image ≠ "" → eng.present svc.image = true →
          processServiceWithBundle eng sname svc baseDir bundleName bundleVersion =
            ⟨.ok svc.image, svc, [], [.inspect svc.image]⟩)
      ∧ (svc.build = none → svc.image ≠ "" → eng.present svc.image = false →
          eng.pullStartFail svc.image = false →
          eng.pullFrameErr svc.image = none →
          processServiceWithBundle eng sname svc baseDir bundleName bundleVersion =
            ⟨.ok svc.image, svc, [svc.image],
             [.inspect svc.image, .pull svc.image]⟩)
      ∧ (svc.build = none → svc.image = "" →
          processServiceWithBundle eng sname svc baseDir bundleName bundleVersion =
            ⟨.ok "", svc, [], []⟩)
      ∧ (∀ restServices n, svc.build = none → svc.image = "" →
          processAll eng baseDir bundleName bundleVersion ((n, svc) :: restServices) =
            (match processAll eng baseDir bundleName bundleVersion restServices with
             | (.error e, tr) => (.error e, tr)
             | (.ok (svcs, refs, pulled), tr) =>
               (.ok ((n, svc) :: svcs, refs, pulled), tr))) := by
  intro eng sname svc baseDir bundleName bundleVersion
  refine ⟨?_, ?_, ?_, ?_, ?_⟩
  · intro bs config hb hp hcall hframe
    simp [processServiceWithBundle, hb, hp, buildImage, hcall, hframe]
  · intro hb himg hpres
    simp [processServiceWithBundle, hb, himg, pullImageIfNotExists, hpres]
  · intro hb himg hpres hstart hframe
    simp [processServiceWithBundle, hb, himg, pullImageIfNotExists, hpres,
      hstart, hframe]
  · intro hb himg
    simp [processServiceWithBundle, hb, himg]
  · intro restServices n hb himg
    have hres : processServiceWithBundle eng n svc baseDir bundleName bundleVersion =
        ⟨.ok "", svc, [], []⟩ := by
      simp [processServiceWithBundle, hb, himg]
    rw [processAll, hres]
    rcases hr : processAll eng baseDir bundleName bundleVersion restServices with
      ⟨res, tr⟩
    cases res with
    | error e => simp
    | ok out =>
      rcases out with ⟨svcs, refs, pulled⟩
      simp

/-- C1 witness: the build branch resolves the relative context against the
manifest directory, defaults the Dockerfile, rewrites the service and
returns the synthetic reference; the image branch returns the reference
unchanged after a local inspect. -/
theorem resolver_branches_spec_witness :
    processServiceWithBundle engW "web"
        ⟨"", some (.confSpec ⟨"./web", "", []⟩), []⟩ "." "example" "0.0.1" =
      ⟨.ok "bundles/example/web:0.0.1",
       ⟨"bundles/example/web:0.0.1", none, []⟩, [],
       [.build "web" "Dockerfile" "bundles/example/web:0.0.1"]⟩
    ∧ processServiceWithBundle engW "redis" svcRedis "." "example" "0.0.1" =
      ⟨.ok "redis:7", svcRedis, [], [.inspect "redis:7"]⟩ := by
  constructor
  · exact ((resolver_branches_spec engW "web"
      ⟨"", some (.confSpec ⟨"./web", "", []⟩), []⟩ "." "example" "0.0.1").1
      (.confSpec ⟨"./web", "", []⟩) ⟨"./web", "", []⟩ rfl rfl rfl rfl).trans
      (by decide)
  · exact ((resolver_branches_spec engW "redis" svcRedis "." "example"
      "0.0.1").2.1 rfl (by decide) rfl).trans (by decide)

/-- C3, code bug: the cleanup prefix check looks for bundled- while every
reference built by the resolver starts with bundles/, so a service whose
image was resolved by building is never submitted to the engine remove
call, and in general no synthetic build reference matches the prefix. -/
theorem cleanup_never_matches_built_refs :
    cleanupImages (fun _ => false)
        [("web", ⟨"bundles/example/web:0.0.1", none, []⟩)] = []
    ∧ (∀ bundleName serviceName bundleVersion : String,
        strStarts
          ("bundles/" ++ bundleName ++ "/" ++ serviceName ++ ":" ++ bundleVersion)
          "bundled-" = false) := by
  refine ⟨by decide, ?_⟩
  intro bn sn bv
  have h : "bundles/" ++ bn ++ "/" ++ sn ++ ":" ++ bv =
      "bundles/" ++ (bn ++ "/" ++ sn ++ ":" ++ bv) := by
    simp [String.append_assoc]
  rw [h]
  exact strStarts_bundles _

/-- The engine trace of the cleanup phase does not depend on which removal
calls fail. -/
theorem cleanupTrace_eq (rf : String → Bool) (svcs : List (String × Service))
    (pulled : List String) :
    (cleanupImages rf svcs ++ cleanupFreshlyPulledImages rf pulled).map
        (fun p => EngineEvent.remove p.1)
      = (builtCleanupTargets svcs ++ pulled).map EngineEvent.remove := by
  simp only [cleanupImages, cleanupFreshlyPulledImages, List.map_append,
    List.map_map]
  rfl

/-- C7: once the run has reached the point where the archive is written,
the result of Bundle is success independently of the removal oracle; the
whole run is invariant under changing which removals fail, and both cleanup
passes attempt every candidate, so one failure never aborts the remaining
cleanup. -/
theorem cleanup_failures_spec :
    (∀ eng rf rf2 parsed baseDir,
      bundleRun eng rf parsed baseDir = bundleRun eng rf2 parsed baseDir)
    ∧ (∀ rf svcs,
        (cleanupImages rf svcs).map Prod.fst = builtCleanupTargets svcs)
    ∧ (∀ rf pulled,
        (cleanupFreshlyPulledImages rf pulled).map Prod.fst = pulled)
    ∧ (∀ eng rf compose xb svcs rawRefs pulled tr str2 baseDir,
        validateBundleMetadata compose = .ok xb →
        processAll eng baseDir xb.name xb.version compose.services =
          (.ok (svcs, rawRefs, pulled), tr) →
        saveAll eng (uniqueKeys rawRefs) = (.ok (), str2) →
        ∃ tr2, bundleRun eng rf (some compose) baseDir =
          (.ok ⟨bundleEntries (uniqueKeys rawRefs), svcs⟩, tr2)
          ∧ (∀ r ∈ builtCleanupTargets svcs, EngineEvent.remove r ∈ tr2)
          ∧ (∀ r ∈ pulled, EngineEvent.remove r ∈ tr2)) := by
  refine ⟨?_, ?_, ?_, ?_⟩
  · intro eng rf rf2 parsed baseDir
    cases parsed with
    | none => rfl
    | some compose =>
      cases hv : validateBundleMetadata compose with
      | error e => simp [bundleRun, hv]
      | ok xb =>
        rcases hp : processAll eng baseDir xb.name xb.version compose.services
          with ⟨res, tr⟩
        cases res with
        | error e => simp [bundleRun, hv, hp]
        | ok out =>
          rcases out with ⟨svcs, rawRefs, pulled⟩
          rcases hs : saveAll eng (uniqueKeys rawRefs) with ⟨sres, str2⟩
          cases sres with
          | error e => simp [bundleRun, hv, hp, hs]
          | ok u =>
            simp only [bundleRun, hv, hp, hs]
            rw [cleanupTrace_eq, cleanupTrace_eq]
  · intro rf svcs
    simp only [cleanupImages, List.map_map]
    show List.map (fun r : String => r) (builtCleanupTargets svcs) = _
    exact List.map_id _
  · intro rf pulled
    simp only [cleanupFreshlyPulledImages, List.map_map]
    show List.map (fun r : String => r) pulled = _
    exact List.map_id _
  · intro eng rf compose xb svcs rawRefs pulled tr str2 baseDir hv hp hs
    refine ⟨tr ++ str2
      ++ (cleanupImages rf svcs
          ++ cleanupFreshlyPulledImages rf pulled).map
            (fun p => EngineEvent.remove p.1), ?_, ?_, ?_⟩
    · simp only [bundleRun, hv, hp, hs]
    · intro r hr
      rw [cleanupTrace_eq]
      refine List.mem_append_right _ (List.mem_map.2 ⟨r, ?_, rfl⟩)
      exact List.mem_append_left _ hr
    · intro r hr
      rw [cleanupTrace_eq]
      refine List.mem_append_right _ (List.mem_map.2 ⟨r, ?_, rfl⟩)
      exact List.mem_append_right _ hr

/-- C7 witness: a concrete run in which every removal fails still returns
the archive and attempts the removal of the freshly pulled reference. -/
theorem cleanup_failures_spec_witness :
    ∃ tr2, bundleRun engPullW (fun _ => true) (some composeW) "." =
      (.ok ⟨bundleEntries (uniqueKeys ["redis:7"]), [("redis", svcRedis)]⟩, tr2)
      ∧ (∀ r ∈ builtCleanupTargets [("redis", svcRedis)],
          EngineEvent.remove r ∈ tr2)
      ∧ (∀ r ∈ ["redis:7"], EngineEvent.remove r ∈ tr2) :=
  cleanup_failures_spec.2.2.2 engPullW (fun _ => true) composeW
    ⟨"example", "1.0.0"⟩ [("redis", svcRedis)] ["redis:7"] ["redis:7"]
    [.inspect "redis:7", .pull "redis:7"] [.save "redis:7"] "."
    (by rfl) (by rfl) (by rfl)

/-- C9: with absent metadata, an empty name, an empty version or a version
failing the semantic-version pattern, Bundle fails during validation and
the engine trace is empty: no build, inspect, pull, save or remove call is
issued before successful metadata validation. -/
theorem invalid_metadata_no_engine_calls :
    ∀ (eng : EngineBehavior) (rf : String → Bool) (compose : Manifest)
      (baseDir : String),
      (compose.xbundle = none
        ∨ ∃ xb, compose.xbundle = some xb
            ∧ (xb.name = "" ∨ xb.version = ""
                ∨ isValidSemver xb.version = false)) →
      ∃ e, bundleRun eng rf (some compose) baseDir = (.error e, []) := by
  intro eng rf compose baseDir h
  have hval : ∃ e, validateBundleMetadata compose = .error e := by
    rcases h with h | ⟨xb, hx, h⟩
    · exact ⟨"missing x-bundle entry in compose file",
        by simp [validateBundleMetadata, h]⟩
    · by_cases hn : xb.name = ""
      · exact ⟨"missing name in x-bundle",
          by simp [validateBundleMetadata, hx, hn]⟩
      · by_cases hver : xb.version = ""
        · exact ⟨"missing version in x-bundle",
            by simp [validateBundleMetadata, hx, hn, hver]⟩
        · have hs : isValidSemver xb.version = false := by
            rcases h with h | h | h
            · exact absurd h hn
            · exact absurd h hver
            · exact h
          exact ⟨"invalid version in x-bundle, must be valid semantic versioning",
            by simp [validateBundleMetadata, hx, hn, hver, hs]⟩
  obtain ⟨e, he⟩ := hval
  exact ⟨e, by simp only [bundleRun, he]⟩

/-- C9 witness: the invalid version 1.2 aborts a run before any engine
call. -/
theorem invalid_metadata_no_engine_calls_witness :
    ∃ e, bundleRun engW (fun _ => false) (some composeBadW) "." =
      (.error e, []) :=
  invalid_metadata_no_engine_calls engW (fun _ => false) composeBadW "."
    (Or.inr ⟨⟨"example", "1.2"⟩, rfl, Or.inr (Or.inr (by decide))⟩)

/-- A find over two appended mapping parts with no match in the first part
and no match in the second yields no match. -/
theorem find?_append_none {α : Type} {p : α → Bool} {l1 l2 : List α}
    (h : l1.find? p = none) : (l1 ++ l2).find? p = l2.find? p := by
  induction l1 with
  | nil => simp
  | cons a l ih =>
    by_cases hpa : p a = true
    · simp [List.find?, hpa] at h
    · rw [Bool.not_eq_true] at hpa
      simp only [List.cons_append, List.find?, hpa] at h ⊢
      exact ih h

/-- The marshalled manifest exposes its services under the services key. -/
theorem lookupY_enc_services (m : Manifest) :
    lookupY (encodeComposeKvs m) "services" =
      some (.ymap (m.services.map fun p => (p.1, encodeService p.2))) := by
  simp [encodeComposeKvs, lookupY, List.find?]

/-- The marshalled manifest exposes its metadata under the x-bundle key. -/
theorem lookupY_enc_xbundle (m : Manifest) :
    lookupY (encodeComposeKvs m) "x-bundle" =
      some (match m.xbundle with
        | none => .nullv
        | some xb => .ymap [("name", .str xb.name),
                            ("version", .str xb.version)]) := by
  rcases m with ⟨ver, svcs, nets, vols, cfgs, secs, xb⟩
  cases nets <;> cases vols <;> cases cfgs <;> cases secs <;>
    simp [encodeComposeKvs, optPart, lookupY, List.find?]

/-- Unmarshalling a marshalled service recovers its image reference, as
long as the passthrough entries avoid the declared image and build keys. -/
theorem decodeService_image (s : Service)
    (h : (s.rest.all fun q => q.1 != "image" && q.1 != "build") = true) :
    (decodeService (encodeService s)).image = s.image := by
  by_cases himg : s.image = ""
  · have hb : (match s.build with
        | none => ([] : List (String × YVal))
        | some b => [("build", encodeBuild b)]).find?
          (fun p : String × YVal => p.1 == "image") = none := by
      cases s.build <;> simp [List.find?]
    have hr : s.rest.find? (fun p : String × YVal => p.1 == "image") = none := by
      rw [List.find?_eq_none]
      intro q hq
      have hq2 := List.all_eq_true.1 h q hq
      rw [Bool.and_eq_true] at hq2
      rcases hq2 with ⟨h1, -⟩
      simpa using h1
    simp [encodeService, decodeService, himg, lookupY,
      find?_append_none hb, hr, decodeStr]
  · simp [encodeService, decodeService, himg, lookupY, List.find?, decodeStr]

/-- C8: unmarshalling a marshalled manifest yields a manifest with the same
bundle metadata and the same service names with the same image references,
provided the passthrough entries of each service avoid the declared image
and build keys, as Go inline maps must. -/
theorem compose_roundtrip :
    ∀ m : Manifest,
      (∀ p ∈ m.services,
        (p.2.rest.all fun q => q.1 != "image" && q.1 != "build") = true) →
      ∃ m2, decodeCompose (encodeCompose m) = some m2
        ∧ m2.xbundle = m.xbundle
        ∧ m2.services.map (fun p => (p.1, p.2.image))
            = m.services.map (fun p => (p.1, p.2.image)) := by
  intro m hres
  refine ⟨_, rfl, ?_, ?_⟩
  · show (lookupY (encodeComposeKvs m) "x-bundle").bind decodeXBundle
      = m.xbundle
    rw [lookupY_enc_xbundle]
    cases m.xbundle with
    | none => rfl
    | some xb => simp [decodeXBundle, lookupY, List.find?, decodeStr]
  · show (match lookupY (encodeComposeKvs m) "services" with
      | some (.ymap svs) =>
        svs.map fun p : String × YVal => (p.1, decodeService p.2)
      | _ => ([] : List (String × Service))).map
        (fun p : String × Service => (p.1, p.2.image))
      = m.services.map fun p : String × Service => (p.1, p.2.image)
    rw [lookupY_enc_services]
    simp only [List.map_map]
    refine List.map_congr_left ?_
    intro p hp
    show (p.1, (decodeService (encodeService p.2)).image) = (p.1, p.2.image)
    rw [decodeService_image p.2 (hres p hp)]

/-- C8 witness: a concrete manifest with passthrough data round-trips with
its metadata and service images intact. -/
theorem compose_roundtrip_witness :
    ∃ m2, decodeCompose (encodeCompose
        ⟨"3", [("web", ⟨"nginx:1", none, [("ports", .arr [.str "80:80"])]⟩)],
         some (.ymap []), none, none, none, some ⟨"ex", "1.0.0"⟩⟩) = some m2
      ∧ m2.xbundle = some ⟨"ex", "1.0.0"⟩
      ∧ m2.services.map (fun p => (p.1, p.2.image)) = [("web", "nginx:1")] :=
  compose_roundtrip
    ⟨"3", [("web", ⟨"nginx:1", none, [("ports", .arr [.str "80:80"])]⟩)],
     some (.ymap []), none, none, none, some ⟨"ex", "1.0.0"⟩⟩ (by decide)

end DCB
